import Mathlib

set_option maxHeartbeats 1000000

namespace SnpePosterior

/-- Possible value of one 32-bit float log-probability entry as the torch
code manipulates it: a finite real number, plus or minus infinity, or NaN. -/
inductive LogVal
  | nan
  | negInf
  | posInf
  | fin (r : ℝ)

/-- The `torch.isfinite` test: true exactly on finite entries (NaN and the
two infinities are not finite). -/
def LogVal.isFinite : LogVal → Bool
  | .fin _ => true
  | _ => false

/-- IEEE-style subtraction of log values, as torch computes `a - b` on
float tensors. -/
noncomputable def LogVal.sub : LogVal → LogVal → LogVal
  | .nan, _ => .nan
  | .fin a, .fin b => .fin (a - b)
  | .fin _, .negInf => .posInf
  | .fin _, .posInf => .negInf
  | .fin _, .nan => .nan
  | .negInf, .fin _ => .negInf
  | .negInf, .negInf => .nan
  | .negInf, .posInf => .negInf
  | .negInf, .nan => .nan
  | .posInf, .fin _ => .posInf
  | .posInf, .negInf => .posInf
  | .posInf, .posInf => .nan
  | .posInf, .nan => .nan

/-- Evaluation of `torch.log` on a scalar tensor holding the rational value
`c`: finite logarithm for positive input, minus infinity at zero, NaN for
negative input. -/
noncomputable def torchLog (c : ℚ) : LogVal :=
  if 0 < c then .fin (Real.log (c : ℝ)) else if c = 0 then .negInf else .nan

/-- A conditioning context tensor: an optional object identity (`none` for a
freshly created tensor such as a slice, which is identical to no stored
tensor) together with its element values. -/
structure Ctx where
  id : Option ℕ
  val : List ℚ
deriving DecidableEq, Repr

/-- Python identity `x is y` between context tensors: both refer to the same
stored object. -/
def ctxIs (x y : Ctx) : Bool :=
  match x.id, y.id with
  | some a, some b => a == b
  | _, _ => false

/-- A batch of conditioning contexts; the first dimension is the batch. -/
structure BatchCtx where
  id : Option ℕ
  rows : List (List ℚ)
deriving DecidableEq, Repr

/-- The helper `batched_first_of_batch`: the slice `x[:1]`, a fresh tensor
object holding the values of the first batch element. -/
def batched_first_of_batch (x : BatchCtx) : Ctx :=
  { id := none, val := x.rows.headD [] }

/-- A value stored in an MCMC parameter dictionary. -/
inductive MVal
  | natV (n : ℕ)
  | strV (s : String)
deriving DecidableEq, Repr

/-- The recognized MCMC parameter keys. -/
inductive MKey
  | thin
  | warmup_steps
  | num_chains
  | init_strategy
  | init_strategy_num_candidates
deriving DecidableEq, Repr

/-- The fields of the posterior object that this layer reads or writes. -/
structure PState where
  method_family : String
  default_x : Option Ctx
  leakage_density_correction_factor : Option ℚ
  sample_with_mcmc : Bool
  mcmc_method : String
  mcmc_parameters : List (MKey × MVal)
deriving DecidableEq, Repr

/-- Result of one `leakage_correction` call: the factor returned to the
caller, the contents of the cache field after the call, and the list of
contexts at which the inner `acceptance_at` estimator was actually run. -/
structure LCResult where
  value : ℚ
  newCache : Option ℚ
  accArgs : List Ctx
deriving DecidableEq, Repr

/-- The method `leakage_correction(x, force_update)`, with `acc` standing
for the inner `acceptance_at` closure (the external rejection-rate
estimation primitive `sample_posterior_within_prior`). A context is new
when no default is stored, or when it is neither the identical object nor
element-wise equal to the stored default; a new context is estimated afresh
and never cached, while the default context is estimated once, cached, and
re-estimated only when the cache is empty or `force_update` is set. -/
def leakage_correction (acc : Ctx → ℚ) (st : PState) (x : Ctx)
    (force_update : Bool) : LCResult :=
  match st.default_x with
  | none =>
    { value := acc x, newCache := st.leakage_density_correction_factor,
      accArgs := [x] }
  | some d =>
    if !ctxIs x d && decide (x.val ≠ d.val) then
      { value := acc x, newCache := st.leakage_density_correction_factor,
        accArgs := [x] }
    else if st.leakage_density_correction_factor.isNone || force_update then
      { value := acc d, newCache := some (acc d), accArgs := [d] }
    else
      { value := st.leakage_density_correction_factor.getD 0,
        newCache := st.leakage_density_correction_factor, accArgs := [] }

/-- The method `set_sample_with_mcmc(use_mcmc)`: the posterior state after
the call paired with the raised error message, if any. Turning MCMC off is
rejected for every method family other than `snpe`, before any state
mutation; otherwise the stored mode is updated and the object returned for
chaining. -/
def set_sample_with_mcmc (st : PState) (use_mcmc : Bool) :
    PState × Option String :=
  if !use_mcmc && !((["snpe"] : List String).contains st.method_family) then
    (st, some (st.method_family ++ " cannot use MCMC for sampling."))
  else
    ({ st with sample_with_mcmc := use_mcmc }, none)

/-- Result of one `_log_prob_snpe` call: the returned batch of log-density
entries, the contents of the cache field after the call, and the contexts at
which acceptance estimation was run during the call. -/
structure LPResult where
  out : List LogVal
  newCache : Option ℚ
  accArgs : List Ctx

/-- The method `_log_prob_snpe(theta, x, norm_posterior)` on a batch `theta`
of parameters: the estimator log-densities are masked to minus infinity
wherever the prior's log-density is not finite, and the subtracted log
factor is `log(leakage_correction(batched_first_of_batch x))` when
normalization is requested and the plain integer `0` otherwise. -/
noncomputable def log_prob_snpe {Θ : Type} (acc : Ctx → ℚ)
    (net : Θ → BatchCtx → LogVal) (prior : Θ → LogVal) (st : PState)
    (theta : List Θ) (x : BatchCtx) (norm_posterior : Bool) : LPResult :=
  let masked : Θ → LogVal :=
    fun t => if (prior t).isFinite then net t x else .negInf
  if norm_posterior then
    let lc := leakage_correction acc st (batched_first_of_batch x) false
    { out := theta.map (fun t => (masked t).sub (torchLog lc.value)),
      newCache := lc.newCache, accArgs := lc.accArgs }
  else
    { out := theta.map (fun t => (masked t).sub (.fin 0)),
      newCache := st.leakage_density_correction_factor, accArgs := [] }

/-- Modelled from the spec: the key-wise merge of caller-supplied MCMC
parameters with the configured defaults, performed by the chain runner
`_sample_posterior_mcmc` (declared outside this source file), which receives
the caller's dictionary as keyword arguments: a recognized key takes the
caller's override when present and retains the configured default
otherwise. -/
def merge_mcmc_parameters (defaults : MKey → MVal)
    (overrides : List (MKey × MVal)) : MKey → MVal :=
  fun k => (overrides.lookup k).getD (defaults k)

/-- The torch call `samples.reshape((*sample_shape, -1))` on the flat data
of a tensor: it succeeds when `sample_shape.prod` is positive and divides
the element count, inferring the trailing dimension, and keeps the flat
data order. -/
def reshape_with_infer (flat : List ℚ) (sample_shape : List ℕ) :
    Option (List ℕ × List ℚ) :=
  if 0 < sample_shape.prod ∧ sample_shape.prod ∣ flat.length then
    some (sample_shape ++ [flat.length / sample_shape.prod], flat)
  else none

/-- Observable outcome of one `sample(...)` call: the effective sampling
mode, MCMC method and MCMC parameter dictionary used for this call, the
flat sample count requested from the selected strategy, the reshaped
output, and the posterior state after the call. -/
structure SampleResult where
  usedMcmc : Bool
  usedMethod : String
  usedParams : List (MKey × MVal)
  requested : ℕ
  output : Option (List ℕ × List ℚ)
  post : PState

/-- The method `sample(sample_shape, x, sample_with_mcmc, mcmc_method,
mcmc_parameters)`: each per-call override falls back to the stored
configuration when absent, the flat sample count is
`torch.Size(sample_shape).numel()`, and the draws produced by the selected
strategy (the external MCMC chain runner, or the external rejection sampler
`sample_posterior_within_prior`) are reshaped to `(*sample_shape, -1)`. -/
def sample
    (mcmcRun : BatchCtx → String → List (MKey × MVal) → ℕ → List (List ℚ))
    (rejRun : BatchCtx → ℕ → List (List ℚ))
    (st : PState) (sample_shape : List ℕ) (x : BatchCtx)
    (sample_with_mcmc : Option Bool) (mcmc_method : Option String)
    (mcmc_parameters : Option (List (MKey × MVal))) : SampleResult :=
  let num_samples := sample_shape.prod
  let swm := sample_with_mcmc.getD st.sample_with_mcmc
  let method := mcmc_method.getD st.mcmc_method
  let params := mcmc_parameters.getD st.mcmc_parameters
  let samples :=
    if swm then mcmcRun x method params num_samples else rejRun x num_samples
  { usedMcmc := swm, usedMethod := method, usedParams := params,
    requested := num_samples,
    output := reshape_with_infer samples.flatten sample_shape,
    post := st }

/-- Concrete default context used as a stored `default_x` in examples. -/
def d0 : Ctx := ⟨some 0, [1]⟩

/-- Concrete fresh context value-equal to `d0`. -/
def x0 : Ctx := ⟨none, [1]⟩

/-- Concrete fresh context whose value differs from `d0`. -/
def x1 : Ctx := ⟨none, [2]⟩

/-- Concrete single-element batch context. -/
def bx0 : BatchCtx := ⟨none, [[1]]⟩

/-- Concrete acceptance estimator returning one half everywhere. -/
def accHalf : Ctx → ℚ := fun _ => 1/2

/-- Concrete snpe-family posterior state with a stored default context and
an empty correction cache. -/
def stA : PState := ⟨"snpe", some d0, none, true, "slice_np", []⟩

/-- Concrete snpe-family posterior state with a stored default context and
a cached correction factor of one quarter. -/
def stB : PState := ⟨"snpe", some d0, some (1/4), true, "slice_np", []⟩

/-- Concrete snl-family posterior state sampling with MCMC. -/
def stSnl : PState := ⟨"snl", none, none, true, "slice_np", []⟩

/-- Concrete estimator network output used in witnesses. -/
noncomputable def netC : ℕ → BatchCtx → LogVal := fun _ _ => .fin 5

/-- Concrete prior log-density placing every parameter outside support. -/
def priorOutC : ℕ → LogVal := fun _ => .negInf

/-- Concrete prior log-density placing every parameter inside support. -/
noncomputable def priorInC : ℕ → LogVal := fun _ => .fin 0

/-- Claim C1: for a context value-equal to the stored default context,
`leakage_correction` returns the cached factor, with no estimation, when a
cache exists and `force_update` is unset; when no cache exists or
`force_update` is set it re-estimates the acceptance at the default context,
stores it as the new cached factor, and returns it; and a repeated call on
the resulting state returns the identical value with no further
estimation. -/
theorem leakage_correction_default_context_cache (acc : Ctx → ℚ)
    (st : PState) (x d : Ctx) (hd : st.default_x = some d)
    (hv : x.val = d.val) :
    (∀ f, st.leakage_density_correction_factor = some f →
      leakage_correction acc st x false = ⟨f, some f, []⟩)
    ∧ (∀ fu : Bool,
        (st.leakage_density_correction_factor = none ∨ fu = true) →
        leakage_correction acc st x fu = ⟨acc d, some (acc d), [d]⟩)
    ∧ leakage_correction acc
        { st with leakage_density_correction_factor :=
            (leakage_correction acc st x false).newCache } x false
      = ⟨(leakage_correction acc st x false).value,
         (leakage_correction acc st x false).newCache, []⟩ := by
  refine ⟨?_, ?_, ?_⟩
  · intro f hf
    simp [leakage_correction, hd, hf, hv]
  · intro fu hfu
    rcases hfu with h | h
    · simp [leakage_correction, hd, h, hv]
    · subst h
      cases hcf : st.leakage_density_correction_factor <;>
        simp [leakage_correction, hd, hcf, hv]
  · cases hcf : st.leakage_density_correction_factor <;>
      simp [leakage_correction, hd, hcf, hv]

/-- Witness for claim C1 at a concrete cached state and a fresh context
value-equal to the stored default. -/
theorem leakage_correction_default_context_cache_witness :
    (stB.default_x = some d0 ∧ x0.val = d0.val)
    ∧ ((∀ f, stB.leakage_density_correction_factor = some f →
        leakage_correction accHalf stB x0 false = ⟨f, some f, []⟩)
      ∧ (∀ fu : Bool,
          (stB.leakage_density_correction_factor = none ∨ fu = true) →
          leakage_correction accHalf stB x0 fu
            = ⟨accHalf d0, some (accHalf d0), [d0]⟩)
      ∧ leakage_correction accHalf
          { stB with leakage_density_correction_factor :=
              (leakage_correction accHalf stB x0 false).newCache } x0 false
        = ⟨(leakage_correction accHalf stB x0 false).value,
           (leakage_correction accHalf stB x0 false).newCache, []⟩) :=
  ⟨⟨rfl, rfl⟩,
   leakage_correction_default_context_cache accHalf stB x0 d0 rfl rfl⟩

/-- Claim C4: for a context that is not value-equal to the stored default
context, or when no default context is stored, `leakage_correction` runs a
fresh acceptance estimation at that context on every call, returns it, and
leaves the cached correction factor unchanged, whatever `force_update`
is. -/
theorem leakage_correction_non_default_fresh (acc : Ctx → ℚ) (st : PState)
    (x : Ctx)
    (h : st.default_x = none ∨
      ∃ d, st.default_x = some d ∧ ctxIs x d = false ∧ x.val ≠ d.val)
    (fu : Bool) :
    leakage_correction acc st x fu
      = ⟨acc x, st.leakage_density_correction_factor, [x]⟩ := by
  rcases h with h | ⟨d, hd, hid, hval⟩
  · simp [leakage_correction, h]
  · simp [leakage_correction, hd, hid, hval]

/-- Witness for claim C4 at a concrete state whose stored default context
differs in value from the queried context. -/
theorem leakage_correction_non_default_fresh_witness :
    (stA.default_x = none ∨
      ∃ d, stA.default_x = some d ∧ ctxIs x1 d = false ∧ x1.val ≠ d.val)
    ∧ leakage_correction accHalf stA x1 false
        = ⟨accHalf x1, stA.leakage_density_correction_factor, [x1]⟩ :=
  ⟨Or.inr ⟨d0, rfl, rfl, by decide⟩,
   leakage_correction_non_default_fresh accHalf stA x1
     (Or.inr ⟨d0, rfl, rfl, by decide⟩) false⟩

/-- Claim C5: `set_sample_with_mcmc false` fails, with the state left
unchanged, when the method family is not `snpe`; in every other case the
call stores the requested mode and returns the updated posterior for
chaining, with no error. -/
theorem set_sample_with_mcmc_spec (st : PState) (u : Bool) :
    (u = false → st.method_family ≠ "snpe" →
      set_sample_with_mcmc st u
        = (st, some (st.method_family ++ " cannot use MCMC for sampling.")))
    ∧ ((u = true ∨ st.method_family = "snpe") →
      set_sample_with_mcmc st u
        = ({ st with sample_with_mcmc := u }, none)) := by
  constructor
  · intro hu hf
    subst hu
    simp [set_sample_with_mcmc, hf]
  · intro h
    rcases h with h | h
    · subst h
      simp [set_sample_with_mcmc]
    · simp [set_sample_with_mcmc, h]

/-- Witness for claim C5: turning MCMC off fails for an snl-family
posterior, and turning it on succeeds and updates the stored mode. -/
theorem set_sample_with_mcmc_spec_witness :
    set_sample_with_mcmc stSnl false
      = (stSnl, some (stSnl.method_family ++ " cannot use MCMC for sampling."))
    ∧ set_sample_with_mcmc stA true
      = ({ stA with sample_with_mcmc := true }, none) :=
  ⟨(set_sample_with_mcmc_spec stSnl false).1 rfl (by decide),
   (set_sample_with_mcmc_spec stA true).2 (Or.inl rfl)⟩

/-- Helper: subtracting the float zero first never changes a later
subtraction on log values. -/
theorem LogVal.sub_fin_zero_sub (m w : LogVal) :
    (m.sub (.fin 0)).sub w = m.sub w := by
  cases m <;> cases w <;> simp [LogVal.sub]

/-- Helper: the factor returned by `leakage_correction` is positive whenever
the acceptance estimator only returns positive rates and any cached factor
is positive. -/
theorem leakage_correction_value_pos (acc : Ctx → ℚ) (st : PState) (x : Ctx)
    (fu : Bool) (hacc : ∀ c, 0 < acc c)
    (hcache : ∀ f, st.leakage_density_correction_factor = some f → 0 < f) :
    0 < (leakage_correction acc st x fu).value := by
  unfold leakage_correction
  split
  · exact hacc x
  · rename_i d hd
    split
    · exact hacc x
    · split
      · exact hacc d
      · rename_i hsaved
        cases hf : st.leakage_density_correction_factor with
        | none => simp [hf] at hsaved
        | some f => simpa [hf] using hcache f hf

/-- Helper: one `leakage_correction` call runs the acceptance estimator at
most once. -/
theorem leakage_correction_accArgs_le_one (acc : Ctx → ℚ) (st : PState)
    (x : Ctx) (fu : Bool) :
    (leakage_correction acc st x fu).accArgs.length ≤ 1 := by
  unfold leakage_correction
  split
  · simp
  · split
    · simp
    · split <;> simp

/-- Claim C2: wherever the prior's log-density is not finite, the entry
returned by `_log_prob_snpe` is minus infinity, for both normalization
settings, regardless of the raw log-density the estimator network
returned. -/
theorem log_prob_snpe_outside_support_neg_inf {Θ : Type} (acc : Ctx → ℚ)
    (net : Θ → BatchCtx → LogVal) (prior : Θ → LogVal) (st : PState)
    (theta : List Θ) (x : BatchCtx) (b : Bool)
    (hacc : ∀ c, 0 < acc c)
    (hcache : ∀ f, st.leakage_density_correction_factor = some f → 0 < f)
    (i : ℕ) (t : Θ) (hi : theta[i]? = some t)
    (hout : (prior t).isFinite = false) :
    (log_prob_snpe acc net prior st theta x b).out[i]?
      = some LogVal.negInf := by
  cases b
  · simp [log_prob_snpe, List.getElem?_map, hi, hout, LogVal.sub]
  · have hpos := leakage_correction_value_pos acc st
      (batched_first_of_batch x) false hacc hcache
    simp [log_prob_snpe, List.getElem?_map, hi, hout, torchLog, hpos, LogVal.sub]

/-- Witness for claim C2 at a concrete batch whose single parameter lies
outside the prior support while the estimator returns a finite value. -/
theorem log_prob_snpe_outside_support_neg_inf_witness :
    (∀ c, 0 < accHalf c)
    ∧ (∀ f, stA.leakage_density_correction_factor = some f → 0 < f)
    ∧ ([0] : List ℕ)[0]? = some 0
    ∧ (priorOutC 0).isFinite = false
    ∧ (log_prob_snpe accHalf netC priorOutC stA [0] bx0 true).out[0]?
        = some LogVal.negInf := by
  refine ⟨fun c => by norm_num [accHalf], fun f hf => by simp [stA] at hf,
    rfl, rfl, ?_⟩
  exact log_prob_snpe_outside_support_neg_inf accHalf netC priorOutC stA
    [0] bx0 true (fun c => by norm_num [accHalf])
    (fun f hf => by simp [stA] at hf) 0 0 rfl rfl

/-- Claim C3: for an in-support parameter, the normalized entry of
`_log_prob_snpe` equals the unnormalized entry minus the logarithm of the
leakage correction taken at the first element of the context batch, and the
normalized call runs at most one acceptance estimation for the whole
batch. -/
theorem log_prob_snpe_normalization_relation {Θ : Type} (acc : Ctx → ℚ)
    (net : Θ → BatchCtx → LogVal) (prior : Θ → LogVal) (st : PState)
    (theta : List Θ) (x : BatchCtx) (i : ℕ) (t : Θ)
    (hi : theta[i]? = some t) (hfin : (prior t).isFinite = true) :
    (log_prob_snpe acc net prior st theta x true).out[i]?
      = ((log_prob_snpe acc net prior st theta x false).out[i]?).map
          (fun v => v.sub (torchLog
            (leakage_correction acc st (batched_first_of_batch x)
              false).value))
    ∧ (log_prob_snpe acc net prior st theta x true).accArgs.length ≤ 1 := by
  constructor
  · simp [log_prob_snpe, List.getElem?_map, hi, hfin, LogVal.sub_fin_zero_sub]
  · simpa [log_prob_snpe] using
      leakage_correction_accArgs_le_one acc st (batched_first_of_batch x)
        false

/-- Witness for claim C3 at a concrete one-element batch of an in-support
parameter. -/
theorem log_prob_snpe_normalization_relation_witness :
    (([7] : List ℕ)[0]? = some 7 ∧ (priorInC 7).isFinite = true)
    ∧ ((log_prob_snpe accHalf netC priorInC stA [7] bx0 true).out[0]?
        = ((log_prob_snpe accHalf netC priorInC stA [7] bx0
              false).out[0]?).map
            (fun v => v.sub (torchLog
              (leakage_correction accHalf stA (batched_first_of_batch bx0)
                false).value))
      ∧ (log_prob_snpe accHalf netC priorInC stA [7] bx0
          true).accArgs.length ≤ 1) :=
  ⟨⟨rfl, rfl⟩, log_prob_snpe_normalization_relation accHalf netC priorInC
    stA [7] bx0 0 7 rfl rfl⟩

/-- Claim C9: without normalization, `_log_prob_snpe` runs no acceptance
estimation at all, leaves the cached correction factor unchanged, subtracts
the constant zero from the masked entries, and its result does not depend
on the acceptance estimator in any way. -/
theorem log_prob_snpe_unnormalized_frame {Θ : Type} (acc acc2 : Ctx → ℚ)
    (net : Θ → BatchCtx → LogVal) (prior : Θ → LogVal) (st : PState)
    (theta : List Θ) (x : BatchCtx) :
    (log_prob_snpe acc net prior st theta x false).accArgs = []
    ∧ (log_prob_snpe acc net prior st theta x false).newCache
        = st.leakage_density_correction_factor
    ∧ (log_prob_snpe acc net prior st theta x false).out
        = theta.map (fun t =>
            (if (prior t).isFinite then net t x else LogVal.negInf).sub
              (LogVal.fin 0))
    ∧ log_prob_snpe acc net prior st theta x false
        = log_prob_snpe acc2 net prior st theta x false :=
  ⟨rfl, rfl, rfl, rfl⟩

/-- Concrete MCMC chain runner producing `n` two-dimensional draws. -/
def mcmcRunC : BatchCtx → String → List (MKey × MVal) → ℕ → List (List ℚ) :=
  fun _ _ _ n => List.replicate n [0, 0]

/-- Concrete rejection sampler producing `n` two-dimensional draws. -/
def rejRunC : BatchCtx → ℕ → List (List ℚ) :=
  fun _ n => List.replicate n [0, 0]

/-- Claim C6: merging caller overrides with the configured MCMC defaults
replaces exactly the keys present in the override set; a key absent from
the overrides keeps its configured default, and re-merging changes nothing
on such a key. -/
theorem merge_mcmc_parameters_spec (defaults : MKey → MVal)
    (overrides : List (MKey × MVal)) (k : MKey) :
    (∀ v, overrides.lookup k = some v →
      merge_mcmc_parameters defaults overrides k = v)
    ∧ (overrides.lookup k = none →
        merge_mcmc_parameters defaults overrides k = defaults k
        ∧ merge_mcmc_parameters (merge_mcmc_parameters defaults overrides)
            overrides k
          = merge_mcmc_parameters defaults overrides k) := by
  refine ⟨?_, ?_⟩
  · intro v hv
    simp [merge_mcmc_parameters, hv]
  · intro hv
    simp [merge_mcmc_parameters, hv]

/-- Witness for claim C6 at a concrete default table and a one-key
override set. -/
theorem merge_mcmc_parameters_spec_witness :
    ([(MKey.thin, MVal.natV 5)].lookup MKey.thin = some (MVal.natV 5)
      ∧ merge_mcmc_parameters (fun _ => MVal.natV 10)
          [(MKey.thin, MVal.natV 5)] MKey.thin = MVal.natV 5)
    ∧ ([(MKey.thin, MVal.natV 5)].lookup MKey.num_chains = none
      ∧ merge_mcmc_parameters (fun _ => MVal.natV 10)
          [(MKey.thin, MVal.natV 5)] MKey.num_chains = MVal.natV 10
      ∧ merge_mcmc_parameters
          (merge_mcmc_parameters (fun _ => MVal.natV 10)
            [(MKey.thin, MVal.natV 5)]) [(MKey.thin, MVal.natV 5)]
          MKey.num_chains
        = merge_mcmc_parameters (fun _ => MVal.natV 10)
            [(MKey.thin, MVal.natV 5)] MKey.num_chains) :=
  ⟨⟨rfl, (merge_mcmc_parameters_spec (fun _ => MVal.natV 10)
      [(MKey.thin, MVal.natV 5)] MKey.thin).1 (MVal.natV 5) rfl⟩,
   rfl, (merge_mcmc_parameters_spec (fun _ => MVal.natV 10)
      [(MKey.thin, MVal.natV 5)] MKey.num_chains).2 rfl⟩

/-- Helper: flattening a list of rows of uniform width `d` yields
`count * d` elements. -/
theorem flatten_length_of_width {α : Type} (s : List (List α)) (d : ℕ)
    (h : ∀ r ∈ s, r.length = d) : s.flatten.length = s.length * d := by
  induction s with
  | nil => simp
  | cons a l ih =>
    have ha : a.length = d := h a (by simp)
    have hl : ∀ r ∈ l, r.length = d := fun r hr => h r (by simp [hr])
    simp only [List.flatten_cons, List.length_append, List.length_cons,
      ha, ih hl]
    ring

/-- Helper: reshaping the flat data of `shape.prod` rows of uniform width
`d` with trailing dimension inference yields the shape `shape ++ [d]` and
the unchanged flat data. -/
theorem reshape_with_infer_uniform {s : List (List ℚ)} {shape : List ℕ}
    {d : ℕ} (hlen : s.length = shape.prod) (hwid : ∀ r ∈ s, r.length = d)
    (hp : 0 < shape.prod) :
    reshape_with_infer s.flatten shape = some (shape ++ [d], s.flatten) := by
  have hfl : s.flatten.length = shape.prod * d := by
    rw [flatten_length_of_width s d hwid, hlen]
  unfold reshape_with_infer
  rw [hfl, if_pos ⟨hp, dvd_mul_right _ _⟩, Nat.mul_div_cancel_left _ hp]

/-- Claim C7: `sample` requests exactly `sample_shape.prod` flat draws from
whichever strategy is active and returns those draws reshaped to
`sample_shape` concatenated with the parameter dimensionality, identically
for the rejection and the MCMC strategy. -/
theorem sample_count_and_reshape
    (mcmcRun : BatchCtx → String → List (MKey × MVal) → ℕ → List (List ℚ))
    (rejRun : BatchCtx → ℕ → List (List ℚ))
    (st : PState) (sample_shape : List ℕ) (x : BatchCtx)
    (o1 : Option Bool) (o2 : Option String)
    (o3 : Option (List (MKey × MVal))) (d : ℕ)
    (hm : ∀ xx m p n, (mcmcRun xx m p n).length = n
      ∧ ∀ r ∈ mcmcRun xx m p n, r.length = d)
    (hr : ∀ xx n, (rejRun xx n).length = n ∧ ∀ r ∈ rejRun xx n, r.length = d)
    (hp : 0 < sample_shape.prod) :
    (sample mcmcRun rejRun st sample_shape x o1 o2 o3).requested
      = sample_shape.prod
    ∧ (sample mcmcRun rejRun st sample_shape x o1 o2 o3).output
      = some (sample_shape ++ [d],
          (if (sample mcmcRun rejRun st sample_shape x o1 o2 o3).usedMcmc
            then mcmcRun x
              (sample mcmcRun rejRun st sample_shape x o1 o2 o3).usedMethod
              (sample mcmcRun rejRun st sample_shape x o1 o2 o3).usedParams
              sample_shape.prod
          else rejRun x sample_shape.prod).flatten) := by
  refine ⟨rfl, ?_⟩
  cases ho : o1.getD st.sample_with_mcmc
  · have h := hr x sample_shape.prod
    simpa [sample, ho] using reshape_with_infer_uniform h.1 h.2 hp
  · have h := hm x (o2.getD st.mcmc_method) (o3.getD st.mcmc_parameters)
      sample_shape.prod
    simpa [sample, ho] using reshape_with_infer_uniform h.1 h.2 hp

/-- Witness for claim C7 at the concrete shape `[3, 4]`, a rejection-path
override, and runners returning two-dimensional draws. -/
theorem sample_count_and_reshape_witness :
    ((∀ xx m p n, (mcmcRunC xx m p n).length = n
        ∧ ∀ r ∈ mcmcRunC xx m p n, r.length = 2)
      ∧ (∀ xx n, (rejRunC xx n).length = n
        ∧ ∀ r ∈ rejRunC xx n, r.length = 2)
      ∧ 0 < ([3, 4] : List ℕ).prod)
    ∧ ((sample mcmcRunC rejRunC stSnl [3, 4] bx0 (some false) none
          none).requested = ([3, 4] : List ℕ).prod
      ∧ (sample mcmcRunC rejRunC stSnl [3, 4] bx0 (some false) none
          none).output
        = some (([3, 4] : List ℕ) ++ [2],
            (if (sample mcmcRunC rejRunC stSnl [3, 4] bx0 (some false) none
                none).usedMcmc
              then mcmcRunC bx0
                (sample mcmcRunC rejRunC stSnl [3, 4] bx0 (some false) none
                  none).usedMethod
                (sample mcmcRunC rejRunC stSnl [3, 4] bx0 (some false) none
                  none).usedParams ([3, 4] : List ℕ).prod
            else rejRunC bx0 ([3, 4] : List ℕ).prod).flatten)) := by
  have hm : ∀ xx m p n, (mcmcRunC xx m p n).length = n
      ∧ ∀ r ∈ mcmcRunC xx m p n, r.length = 2 := by
    intro xx m p n
    refine ⟨List.length_replicate _ _, fun r hr => ?_⟩
    have := List.eq_of_mem_replicate hr
    simp [this]
  have hrj : ∀ xx n, (rejRunC xx n).length = n
      ∧ ∀ r ∈ rejRunC xx n, r.length = 2 := by
    intro xx n
    refine ⟨List.length_replicate _ _, fun r hr => ?_⟩
    have := List.eq_of_mem_replicate hr
    simp [this]
  exact ⟨⟨hm, hrj, by decide⟩,
    sample_count_and_reshape mcmcRunC rejRunC stSnl [3, 4] bx0 (some false)
      none none 2 hm hrj (by decide)⟩

/-- Claim C8 counterexample: an snl-family posterior, legally configured
with MCMC mode (the configuration-time check accepts it), nevertheless
reaches the rejection-sampling path inside `sample` through the per-call
`sample_with_mcmc := false` override, and `sample` raises no mode-legality
error. -/
theorem sample_mode_override_reaches_rejection_cex :
    stSnl.method_family ≠ "snpe"
    ∧ set_sample_with_mcmc stSnl true = (stSnl, none)
    ∧ (sample mcmcRunC rejRunC stSnl [2] bx0 (some false) none
        none).usedMcmc = false :=
  ⟨by decide, rfl, rfl⟩

/-- Claim C8 amended: a successful `set_sample_with_mcmc` call never leaves
a posterior of a non-snpe method family with rejection mode stored, and a
subsequent `sample` call without a per-call `sample_with_mcmc` override
then never takes the rejection-sampling path; the per-call override itself
is not validated. -/
theorem sample_stored_mode_legal (st : PState) (u : Bool)
    (hok : (set_sample_with_mcmc st u).2 = none)
    (hf : st.method_family ≠ "snpe") :
    (set_sample_with_mcmc st u).1.sample_with_mcmc = true
    ∧ ∀ mcmcRun rejRun shape x o2 o3,
        (sample mcmcRun rejRun (set_sample_with_mcmc st u).1 shape x none
          o2 o3).usedMcmc = true := by
  have hu : u = true := by
    by_contra h
    have hu2 : u = false := by simpa using h
    subst hu2
    simp [set_sample_with_mcmc, hf] at hok
  subst hu
  constructor
  · simp [set_sample_with_mcmc]
  · intro mcmcRun rejRun shape x o2 o3
    simp [sample, set_sample_with_mcmc]

/-- Witness for the amended claim C8 at a concrete snl-family posterior
configured with MCMC mode. -/
theorem sample_stored_mode_legal_witness :
    ((set_sample_with_mcmc stSnl true).2 = none
      ∧ stSnl.method_family ≠ "snpe")
    ∧ ((set_sample_with_mcmc stSnl true).1.sample_with_mcmc = true
      ∧ ∀ mcmcRun rejRun shape x o2 o3,
          (sample mcmcRun rejRun (set_sample_with_mcmc stSnl true).1 shape x
            none o2 o3).usedMcmc = true) :=
  ⟨⟨rfl, by decide⟩, sample_stored_mode_legal stSnl true rfl (by decide)⟩

/-- Claim C10: the per-call overrides of `sample` affect only that call:
the stored sampling mode, MCMC method and MCMC parameters after the call
are exactly what they were before it, and a subsequent `sample` call
without overrides uses the originally stored settings. -/
theorem sample_overrides_do_not_mutate
    (mcmcRun : BatchCtx → String → List (MKey × MVal) → ℕ → List (List ℚ))
    (rejRun : BatchCtx → ℕ → List (List ℚ)) (st : PState)
    (shape shape2 : List ℕ) (x x2 : BatchCtx) (o1 : Option Bool)
    (o2 : Option String) (o3 : Option (List (MKey × MVal))) :
    (sample mcmcRun rejRun st shape x o1 o2 o3).post = st
    ∧ (sample mcmcRun rejRun
        ((sample mcmcRun rejRun st shape x o1 o2 o3).post) shape2 x2
        none none none).usedMcmc = st.sample_with_mcmc
    ∧ (sample mcmcRun rejRun
        ((sample mcmcRun rejRun st shape x o1 o2 o3).post) shape2 x2
        none none none).usedMethod = st.mcmc_method
    ∧ (sample mcmcRun rejRun
        ((sample mcmcRun rejRun st shape x o1 o2 o3).post) shape2 x2
        none none none).usedParams = st.mcmc_parameters :=
  ⟨rfl, rfl, rfl, rfl⟩

end SnpePosterior
